import Mathlib

/-!
Shallow embedding of the Auto-tagging-library metadata catalog core
(`database.py`, `file_manager.py`, `tagging.py`, `search.py`).

The persistent SQLite state is modelled as an explicit `DB` value holding the
four relations (`files`, `tags`, `file_tags`, `logs`) together with the
autoincrement counters.  Each Python method becomes a Lean function on `DB`.
Operations that SQLite can reject (a CHECK or FOREIGN KEY violation) return
`Except Unit _`; on the error side the transaction is rolled back, so the
state is unchanged.

Filesystem interaction (`os.path.exists`) is modelled by membership of the
path string in an explicit list `fs` of existing paths; paths use POSIX
separators, and `basename` / `dirname` / `pathJoin` follow `posixpath`
semantics on strings.

SQLite's default `LIKE` operator is modelled by `likeM`: the pattern
character `%` matches any sequence of characters, `_` matches exactly one
character, and ordinary characters compare after ASCII upper-to-lower case
folding.

Commit granularity matters for the audit-log claims, so every mutating
operation that logs is defined through its list of committed transactions
(`... Txns`): `update_file_path` and `create_tag` issue two separate
commits (primary write, then the `log_action` commit), while `delete_tag`,
`assign_tag_to_file` and `remove_tag_from_file` run inside a single
`with conn:` block whose one commit covers both the primary write and the
log insert.
-/

namespace AutoTag

/-- Characters after the last separator, as in `posixpath.basename`. -/
def basenameL (p : List Char) : List Char :=
  (p.reverse.takeWhile (fun c => c ≠ '/')).reverse

/-- Everything up to and including the last separator, the `head` of
`posixpath.split` before its trailing-slash stripping. -/
def dirnameRawL (p : List Char) : List Char :=
  (p.reverse.dropWhile (fun c => c ≠ '/')).reverse

/-- Directory part of a path, as in `posixpath.dirname`: the prefix up to the
last separator, with trailing separators stripped unless the prefix consists
of separators only. -/
def dirnameL (p : List Char) : List Char :=
  let h := dirnameRawL p
  if h ≠ [] ∧ ¬ h.all (fun c => c = '/') then (h.reverse.dropWhile (fun c => c = '/')).reverse
  else h

/-- Two-argument `posixpath.join`. -/
def joinL (a b : List Char) : List Char :=
  if b.head? = some '/' then b
  else if a = [] ∨ a.getLast? = some '/' then a ++ b
  else a ++ '/' :: b

/-- String wrapper for `basenameL` (`os.path.basename`). -/
def basename (s : String) : String := ⟨basenameL s.data⟩

/-- String wrapper for `dirnameL` (`os.path.dirname`). -/
def dirname (s : String) : String := ⟨dirnameL s.data⟩

/-- String wrapper for `joinL` (`os.path.join`). -/
def pathJoin (a b : String) : String := ⟨joinL a.data b.data⟩

/-- ASCII case folding used by SQLite's default `LIKE`: upper-case ASCII
letters fold to lower case, every other character is compared by code point. -/
def foldC (c : Char) : Nat :=
  if 65 ≤ c.toNat ∧ c.toNat ≤ 90 then c.toNat + 32 else c.toNat

/-- SQLite `LIKE` pattern matching (no ESCAPE clause): `%` matches any
sequence of characters, `_` matches exactly one character, other characters
match after ASCII case folding. -/
def likeM : List Char → List Char → Bool
  | [], s => s.isEmpty
  | '%' :: ps, s => s.tails.any (fun t => likeM ps t)
  | '_' :: ps, s =>
    (match s with
      | [] => false
      | _ :: s' => likeM ps s')
  | p :: ps, s =>
    (match s with
      | [] => false
      | c :: s' => (foldC p = foldC c) && likeM ps s')

/-- The pattern `f"%{query}%"` built by the search methods. -/
def likePat (q : String) : List Char := '%' :: (q.data ++ ['%'])

/-- One field matches the query under `field LIKE '%query%'`. -/
def likeQ (q field : String) : Bool := likeM (likePat q) field.data

/-- `LIKE` on a nullable column: `NULL LIKE pattern` is not true. -/
def likeQOpt (q : String) : Option String → Bool
  | some s => likeQ q s
  | none => false

/-- Row of the `files` table: `(id, name, file_path, metadata)`.  `name` is
the display name derived from the path's final segment. -/
structure FileRecord where
  id : Nat
  name : String
  path : String
  metadata : String
deriving DecidableEq

/-- Row of the `tags` table: `(id, name, type)`. -/
structure Tag where
  id : Nat
  name : String
  kind : String
deriving DecidableEq

/-- Row of the `file_tags` association table: `(file_id, tag_id, value)`,
with a nullable `value`. -/
structure Assoc where
  fileId : Nat
  tagId : Nat
  value : Option String
deriving DecidableEq

/-- The persistent state: the four relations plus the autoincrement
counters of `files.id` and `tags.id` (SQLite AUTOINCREMENT never reuses an
id).  A log row is represented by its `action` text. -/
structure DB where
  files : List FileRecord
  tags : List Tag
  fileTags : List Assoc
  logs : List String
  nextFileId : Nat
  nextTagId : Nat
deriving DecidableEq

/-- Freshly initialised database: empty relations, ids start at 1. -/
def initDB : DB := ⟨[], [], [], [], 1, 1⟩

/-- One committed transaction is a state transformer. -/
def Txn : Type := DB → DB

/-- Run a sequence of committed transactions in order. -/
def applyTxns (ts : List Txn) (db : DB) : DB := ts.foldl (fun s t => t s) db

/-- Append one row to the `logs` table (`log_action`). -/
def appendLog (msg : String) (db : DB) : DB := { db with logs := db.logs ++ [msg] }

/-- Log text of `update_file_path`. -/
def updateMsg (o n : String) : String := "Updated file path from " ++ o ++ " to " ++ n

/-- Log text of `create_tag`. -/
def createMsg (nm : String) (tid : Nat) (k : String) : String :=
  "Created tag: " ++ nm ++ " (ID=" ++ Nat.repr tid ++ ", type=" ++ k ++ ")"

/-- Log text of `delete_tag`. -/
def deleteMsg (tid : Nat) : String := "Deleted tag with ID=" ++ Nat.repr tid

/-- Python rendering of the optional association value in the assign log. -/
def valueStr : Option String → String
  | none => "None"
  | some s => s

/-- Log text of `assign_tag_to_file`. -/
def assignMsg (fid tid : Nat) (v : Option String) : String :=
  "Assigned tag (ID=" ++ Nat.repr tid ++ ") to file (ID=" ++ Nat.repr fid ++ "), value="
    ++ valueStr v

/-- Log text of `remove_tag_from_file`. -/
def removeAssocMsg (fid tid : Nat) : String :=
  "Removed tag (ID=" ++ Nat.repr tid ++ ") from file (ID=" ++ Nat.repr fid ++ ")"

/-- The UPDATE statement of `FileManager.update_file_path`: every row whose
`file_path` equals `o` gets `file_path := n` and `name := basename n`. -/
def updateFilesStep (o n : String) (db : DB) : DB :=
  { db with files := db.files.map (fun r =>
      if r.path = o then { r with path := n, name := basename n } else r) }

/-- Commit sequence of `update_file_path`: the UPDATE is committed first
(`conn.commit()`), the log row in a second commit inside `log_action`. -/
def updateFilePathTxns (o n : String) : List Txn :=
  [updateFilesStep o n, appendLog (updateMsg o n)]

/-- `FileManager.update_file_path`. -/
def updateFilePath (db : DB) (o n : String) : DB := applyTxns (updateFilePathTxns o n) db

/-- `FileManager.add_file`: INSERT with `name = basename(file_path)`, then
commit; returns `cursor.lastrowid`.  No log row is written. -/
def addFile (db : DB) (filePath fileMeta : String) : DB × Nat :=
  ({ db with
      files := db.files ++ [⟨db.nextFileId, basename filePath, filePath, fileMeta⟩],
      nextFileId := db.nextFileId + 1 },
   db.nextFileId)

/-- `FileManager.remove_file`: DELETE of the matching `files` rows; the
`ON DELETE CASCADE` clause of `file_tags.file_id` removes the association
rows whose `file_id` is the id of a deleted row.  No log row is written. -/
def removeFile (db : DB) (fid : Nat) : DB :=
  let deleted := db.files.filter (fun r => r.id == fid)
  { db with
      files := db.files.filter (fun r => ! (r.id == fid)),
      fileTags := db.fileTags.filter (fun a => ! deleted.any (fun r => r.id == a.fileId)) }

/-- `FileManager.get_file`: `fetchone` on `SELECT ... WHERE id=?`. -/
def getFile (db : DB) (fid : Nat) : Option FileRecord :=
  db.files.find? (fun r => r.id == fid)

/-- `FileManager.list_files`. -/
def listFiles (db : DB) : List FileRecord := db.files

/-- `FileManager.verify_all_files` against the filesystem `fs` (the list of
existing paths): for each record whose `file_path` does not exist, the
candidate `os.path.join(dirname, basename)` of the same path is probed and,
when it exists, written back as the new `file_path`; `name` and all other
columns stay as they are.  No log row is written. -/
def verifyAllFiles (fs : List String) (db : DB) : DB :=
  { db with files := db.files.map (fun r =>
      if fs.contains r.path then r
      else
        let cand := pathJoin (dirname r.path) (basename r.path)
        if fs.contains cand then { r with path := cand } else r) }

/-- The single transaction of `TagManager.delete_tag` (`with conn:` wraps the
DELETE and the log insert): cascade removal of associations of each deleted
tag row, plus the log row. -/
def deleteTagStep (tid : Nat) (db : DB) : DB :=
  let deleted := db.tags.filter (fun t => t.id == tid)
  appendLog (deleteMsg tid)
    { db with
        tags := db.tags.filter (fun t => ! (t.id == tid)),
        fileTags := db.fileTags.filter (fun a => ! deleted.any (fun t => t.id == a.tagId)) }

/-- Commit sequence of `delete_tag`: one transaction. -/
def deleteTagTxns (tid : Nat) : List Txn := [deleteTagStep tid]

/-- `TagManager.delete_tag`. -/
def deleteTag (db : DB) (tid : Nat) : DB := applyTxns (deleteTagTxns tid) db

/-- The single transaction of `TagManager.assign_tag_to_file`:
`INSERT OR REPLACE` drops any row with the same `(file_id, tag_id)` key and
inserts the new row, and the same commit carries the log row. -/
def assignStep (fid tid : Nat) (v : Option String) (db : DB) : DB :=
  appendLog (assignMsg fid tid v)
    { db with fileTags :=
        db.fileTags.filter (fun a => ! (a.fileId == fid && a.tagId == tid)) ++ [⟨fid, tid, v⟩] }

/-- Commit sequence of `assign_tag_to_file`: one transaction. -/
def assignTagToFileTxns (fid tid : Nat) (v : Option String) : List Txn := [assignStep fid tid v]

/-- `TagManager.assign_tag_to_file`: the foreign keys on `file_tags` make
SQLite reject the write when the referenced file or tag row does not exist;
the `with conn:` block then rolls back, leaving the state unchanged. -/
def assignTagToFile (db : DB) (fid tid : Nat) (v : Option String) : Except Unit DB :=
  if db.files.any (fun r => r.id == fid) && db.tags.any (fun t => t.id == tid) then
    .ok (applyTxns (assignTagToFileTxns fid tid v) db)
  else .error ()

/-- The single transaction of `TagManager.remove_tag_from_file`. -/
def removeAssocStep (fid tid : Nat) (db : DB) : DB :=
  appendLog (removeAssocMsg fid tid)
    { db with fileTags := db.fileTags.filter (fun a => ! (a.fileId == fid && a.tagId == tid)) }

/-- Commit sequence of `remove_tag_from_file`: one transaction. -/
def removeTagFromFileTxns (fid tid : Nat) : List Txn := [removeAssocStep fid tid]

/-- `TagManager.remove_tag_from_file`. -/
def removeTagFromFile (db : DB) (fid tid : Nat) : DB :=
  applyTxns (removeTagFromFileTxns fid tid) db

/-- The INSERT of `create_tag`, committed on its own before the log. -/
def createTagRow (nm k : String) (db : DB) : DB :=
  { db with tags := db.tags ++ [⟨db.nextTagId, nm, k⟩], nextTagId := db.nextTagId + 1 }

/-- Commit sequence of `create_tag` for the inserted id `tid`: the INSERT is
committed first, the log row in a second commit inside `log_action`. -/
def createTagTxns (nm k : String) (tid : Nat) : List Txn :=
  [createTagRow nm k, appendLog (createMsg nm tid k)]

/-- `TagManager.create_tag`: the CHECK constraint on `tags.type` rejects any
kind outside boolean/numeric/string before anything is committed. -/
def createTag (db : DB) (nm k : String) : Except Unit (DB × Nat) :=
  if k = "boolean" ∨ k = "numeric" ∨ k = "string" then
    .ok (applyTxns (createTagTxns nm k db.nextTagId) db, db.nextTagId)
  else .error ()

/-- `TagManager.get_tags_for_file`: join of `tags` and `file_tags` on
`tags.id = file_tags.tag_id` restricted to `file_tags.file_id = fid`,
selecting `(tags.id, tags.name, tags.type, file_tags.value)`. -/
def getTagsForFile (db : DB) (fid : Nat) : List (Nat × String × String × Option String) :=
  db.tags.flatMap (fun t =>
    (db.fileTags.filter (fun a => a.tagId == t.id && a.fileId == fid)).map
      (fun a => (t.id, t.name, t.kind, a.value)))

/-- `SearchEngine.search_by_filename`: rows of `files` whose `file_path`
matches `LIKE '%q%'`. -/
def searchByFilename (db : DB) (q : String) : List FileRecord :=
  db.files.filter (fun r => likeQ q r.path)

/-- Rows the double LEFT JOIN of `search_all` produces for one file: one
all-NULL-extended row when the file has no associations; otherwise one row
per association, NULL-extended on the tag side when the tag id matches no
tag row. -/
def rowsFor (db : DB) (f : FileRecord) : List (Option Assoc × Option Tag) :=
  let fts := db.fileTags.filter (fun a => a.fileId == f.id)
  if fts.isEmpty then [(none, none)]
  else fts.flatMap (fun a =>
    let ts := db.tags.filter (fun t => t.id == a.tagId)
    if ts.isEmpty then [(some a, none)]
    else ts.map (fun t => (some a, some t)))

/-- All rows of `files LEFT JOIN file_tags LEFT JOIN tags`. -/
def joinedRows (db : DB) : List (FileRecord × Option Assoc × Option Tag) :=
  db.files.flatMap (fun f => (rowsFor db f).map (fun p => (f, p.1, p.2)))

/-- The WHERE clause of `search_all`: any of the five columns matches
`LIKE '%q%'`; a NULL column never matches. -/
def rowMatches (q : String) (row : FileRecord × Option Assoc × Option Tag) : Bool :=
  likeQ q row.1.path || likeQ q row.1.name || likeQ q row.1.metadata ||
  (match row.2.2 with
    | some t => likeQ q t.name
    | none => false) ||
  (match row.2.1 with
    | some a => likeQOpt q a.value
    | none => false)

/-- `SearchEngine.search_all`: SELECT DISTINCT of
`(f.id, f.name, f.file_path, f.metadata)` over the matching joined rows. -/
def searchAll (db : DB) (q : String) : List (Nat × String × String × String) :=
  (((joinedRows db).filter (rowMatches q)).map
    (fun row => (row.1.id, row.1.name, row.1.path, row.1.metadata))).dedup

/-- Referential integrity of a database state: every association row points
at an existing file row and an existing tag row. -/
def WF (db : DB) : Prop :=
  ∀ a ∈ db.fileTags, (∃ f ∈ db.files, f.id = a.fileId) ∧ (∃ t ∈ db.tags, t.id = a.tagId)

/-- All file ids already in the table are below the autoincrement counter. -/
def FreshIds (db : DB) : Prop :=
  ∀ r ∈ db.files, r.id < db.nextFileId

instance (db : DB) : Decidable (WF db) :=
  inferInstanceAs (Decidable (∀ a ∈ db.fileTags,
    (∃ f ∈ db.files, f.id = a.fileId) ∧ (∃ t ∈ db.tags, t.id = a.tagId)))

instance (db : DB) : Decidable (FreshIds db) :=
  inferInstanceAs (Decidable (∀ r ∈ db.files, r.id < db.nextFileId))

/-- C1: `AddFile(path, metadata)` followed by `GetFile` on the returned id
yields a record whose `path` and `metadata` are exactly the inputs and whose
display name is the final segment (basename) of `path`, on any state whose
file ids are below the autoincrement counter. -/
theorem addFile_getFile_roundtrip (db : DB) (p m : String) (h : FreshIds db) :
    getFile (addFile db p m).1 (addFile db p m).2 = some ⟨db.nextFileId, basename p, p, m⟩ := by
  have hnone : db.files.find? (fun r => r.id == db.nextFileId) = none := by
    refine List.find?_eq_none.mpr fun r hr => ?_
    have := h r hr
    simp only [beq_iff_eq]
    omega
  simp [getFile, addFile, List.find?_append, hnone]

/-- Witness for C1 at a concrete input. -/
theorem addFile_getFile_roundtrip_witness :
    getFile (addFile initDB "a/b" "m").1 (addFile initDB "a/b" "m").2 =
      some ⟨initDB.nextFileId, basename "a/b", "a/b", "m"⟩ :=
  addFile_getFile_roundtrip initDB "a/b" "m" (by decide)

/-- In the state after `remove_file fid`, no association row carries `fid`,
provided the starting state satisfies referential integrity. -/
theorem removeFile_no_assoc (db : DB) (fid : Nat) (h : WF db) :
    ∀ a ∈ (removeFile db fid).fileTags, a.fileId ≠ fid := by
  intro a ha hEq
  simp only [removeFile, List.mem_filter] at ha
  obtain ⟨haMem, haKeep⟩ := ha
  obtain ⟨⟨f, hf, hfid⟩, -⟩ := h a haMem
  have : (db.files.filter (fun r => r.id == fid)).any (fun r => r.id == a.fileId) = true := by
    refine List.any_eq_true.mpr ⟨f, ?_, by simp [hfid, hEq]⟩
    exact List.mem_filter.mpr ⟨hf, by simp [hfid, hEq]⟩
  simp [this] at haKeep

/-- C2: after `RemoveFile(id)`, `GetFile(id)` is not-found and
`GetTagsForFile(id)` is empty, even when associations for `id` existed
before (the `ON DELETE CASCADE` clause removes them). -/
theorem removeFile_cascades (db : DB) (fid : Nat) (h : WF db) :
    getFile (removeFile db fid) fid = none ∧ getTagsForFile (removeFile db fid) fid = [] := by
  constructor
  · refine List.find?_eq_none.mpr fun r hr => ?_
    have := List.mem_filter.mp hr
    simpa using this.2
  · refine List.flatMap_eq_nil_iff.mpr fun t _ => ?_
    simp only [List.map_eq_nil_iff]
    refine List.filter_eq_nil_iff.mpr fun a ha => ?_
    have := removeFile_no_assoc db fid h a ha
    simp [this]

/-- Witness for C2: a state with one file, one tag and one association. -/
theorem removeFile_cascades_witness :
    getFile (removeFile ⟨[⟨1, "b", "a/b", ""⟩], [⟨1, "kind", "string"⟩],
        [⟨1, 1, some "v"⟩], [], 2, 2⟩ 1) 1 = none ∧
    getTagsForFile (removeFile ⟨[⟨1, "b", "a/b", ""⟩], [⟨1, "kind", "string"⟩],
        [⟨1, 1, some "v"⟩], [], 2, 2⟩ 1) 1 = [] :=
  removeFile_cascades _ 1 (by decide)

/-- C3: assigning the same `(fileId, tagId)` twice, with values `v1` then
`v2`, succeeds whenever the referenced file and tag rows exist, and leaves
exactly one association row for that key, holding `v2`. -/
theorem assign_upsert_latest_value (db : DB) (fid tid : Nat) (v1 v2 : Option String)
    (hf : db.files.any (fun r => r.id == fid) = true)
    (ht : db.tags.any (fun t => t.id == tid) = true) :
    ∃ db1 db2, assignTagToFile db fid tid v1 = .ok db1 ∧
      assignTagToFile db1 fid tid v2 = .ok db2 ∧
      db2.fileTags.filter (fun a => a.fileId == fid && a.tagId == tid) = [⟨fid, tid, v2⟩] := by
  refine ⟨applyTxns (assignTagToFileTxns fid tid v1) db,
    applyTxns (assignTagToFileTxns fid tid v2) (applyTxns (assignTagToFileTxns fid tid v1) db),
    ?_, ?_, ?_⟩
  · simp [assignTagToFile, hf, ht]
  · have hf1 : (applyTxns (assignTagToFileTxns fid tid v1) db).files = db.files := rfl
    have ht1 : (applyTxns (assignTagToFileTxns fid tid v1) db).tags = db.tags := rfl
    simp [assignTagToFile, hf1, ht1, hf, ht]
  · show (((applyTxns (assignTagToFileTxns fid tid v1) db).fileTags.filter
        (fun a : Assoc => ! (a.fileId == fid && a.tagId == tid)) ++ [(⟨fid, tid, v2⟩ : Assoc)]).filter
          (fun a : Assoc => a.fileId == fid && a.tagId == tid)) = [(⟨fid, tid, v2⟩ : Assoc)]
    rw [List.filter_append]
    have h1 : ((applyTxns (assignTagToFileTxns fid tid v1) db).fileTags.filter
        (fun a : Assoc => ! (a.fileId == fid && a.tagId == tid))).filter
          (fun a : Assoc => a.fileId == fid && a.tagId == tid) = [] := by
      refine List.filter_eq_nil_iff.mpr fun a ha => ?_
      have := (List.mem_filter.mp ha).2
      simp only [Bool.not_eq_eq_eq_not, Bool.not_true] at this
      simp [this]
    rw [h1]
    simp

/-- Witness for C3: one file, one tag, two assignments. -/
theorem assign_upsert_latest_value_witness :
    ∃ db1 db2, assignTagToFile ⟨[⟨1, "b", "a/b", ""⟩], [⟨1, "kind", "string"⟩], [], [], 2, 2⟩
        1 1 (some "v1") = .ok db1 ∧
      assignTagToFile db1 1 1 (some "v2") = .ok db2 ∧
      db2.fileTags.filter (fun a => a.fileId == 1 && a.tagId == 1) = [⟨1, 1, some "v2"⟩] :=
  assign_upsert_latest_value _ 1 1 (some "v1") (some "v2") (by decide) (by decide)

/-- The two branches of the repair step of `verify_all_files` collapse to a
single conditional rewrite. -/
theorem verifyStep_eq (fs : List String) (r : FileRecord) :
    (if fs.contains r.path then r
     else
       if fs.contains (pathJoin (dirname r.path) (basename r.path))
       then { r with path := pathJoin (dirname r.path) (basename r.path) } else r) =
    (if (! fs.contains r.path) && fs.contains (pathJoin (dirname r.path) (basename r.path))
     then { r with path := pathJoin (dirname r.path) (basename r.path) } else r) := by
  cases h1 : fs.contains r.path <;>
    cases h2 : fs.contains (pathJoin (dirname r.path) (basename r.path)) <;>
      simp [h1, h2]

/-- C4: `VerifyAllFiles` treats each record independently: a record whose
path does not exist is rewritten to the same-directory/same-basename
candidate exactly when that candidate exists, and is otherwise left
unchanged; no record is deleted and no other table is touched. -/
theorem verifyAllFiles_repairs_or_leaves (fs : List String) (db : DB) :
    (∀ i : Nat, (verifyAllFiles fs db).files[i]? = (db.files[i]?).map (fun r =>
        if (! fs.contains r.path) && fs.contains (pathJoin (dirname r.path) (basename r.path))
        then { r with path := pathJoin (dirname r.path) (basename r.path) }
        else r)) ∧
    (verifyAllFiles fs db).files.length = db.files.length ∧
    (verifyAllFiles fs db).fileTags = db.fileTags ∧
    (verifyAllFiles fs db).tags = db.tags ∧
    (verifyAllFiles fs db).logs = db.logs := by
  refine ⟨fun i => ?_, ?_, rfl, rfl, rfl⟩
  · have hfun : (fun r : FileRecord =>
        if fs.contains r.path then r
        else
          if fs.contains (pathJoin (dirname r.path) (basename r.path))
          then { r with path := pathJoin (dirname r.path) (basename r.path) } else r) =
        (fun r : FileRecord =>
          if (! fs.contains r.path) && fs.contains (pathJoin (dirname r.path) (basename r.path))
          then { r with path := pathJoin (dirname r.path) (basename r.path) } else r) :=
      funext fun r => verifyStep_eq fs r
    show (db.files.map _)[i]? = _
    rw [List.getElem?_map, hfun]
  · show (db.files.map _).length = _
    exact List.length_map _ _

/-- C7: `UpdateFilePath(oldPath, newPath)` rewrites `path` to `newPath` and
the display name to the basename of `newPath` on every record whose path
equals `oldPath` — all of them when several share it — and leaves every
other record and the other tables unchanged. -/
theorem updateFilePath_bulk_rewrite (db : DB) (o n : String) :
    (∀ i : Nat, (updateFilePath db o n).files[i]? = (db.files[i]?).map (fun r =>
        if r.path = o then { r with path := n, name := basename n } else r)) ∧
    (updateFilePath db o n).files.length = db.files.length ∧
    (updateFilePath db o n).fileTags = db.fileTags ∧
    (updateFilePath db o n).tags = db.tags := by
  refine ⟨fun i => ?_, ?_, rfl, rfl⟩
  · show (db.files.map _)[i]? = _
    exact List.getElem?_map _ _ i
  · show (db.files.map _).length = _
    exact List.length_map _ _

/-- Counterexample to C5: `add_file` performs its INSERT and commit without
ever calling `log_action`, so no log row is appended. -/
theorem addFile_writes_no_log : ((addFile initDB "a/b" "m").1).logs = [] := rfl

/-- Sample state with one file and one tag, used by concrete witnesses. -/
def sampleDB : DB := ⟨[⟨1, "b", "a/b", ""⟩], [⟨1, "k", "string"⟩], [], [], 2, 2⟩

/-- C5 (amended): among the Catalog operations only `update_file_path`
appends a LogEntry; `add_file`, `remove_file` and the `verify_all_files`
repair write none.  Every mutating Tag Store operation — `create_tag`,
`delete_tag`, `assign_tag_to_file` (on success) and `remove_tag_from_file` —
appends a LogEntry describing the action. -/
theorem logging_per_operation (db : DB) (o n p m nm k : String) (fid tid : Nat)
    (v : Option String) (fs : List String)
    (hf : db.files.any (fun r => r.id == fid) = true)
    (ht : db.tags.any (fun t => t.id == tid) = true)
    (hk : k = "boolean" ∨ k = "numeric" ∨ k = "string") :
    (updateFilePath db o n).logs = db.logs ++ [updateMsg o n] ∧
    ((addFile db p m).1).logs = db.logs ∧
    (removeFile db fid).logs = db.logs ∧
    (verifyAllFiles fs db).logs = db.logs ∧
    (deleteTag db tid).logs = db.logs ++ [deleteMsg tid] ∧
    (removeTagFromFile db fid tid).logs = db.logs ++ [removeAssocMsg fid tid] ∧
    (∃ db1, assignTagToFile db fid tid v = .ok db1 ∧
      db1.logs = db.logs ++ [assignMsg fid tid v]) ∧
    (∃ db2, createTag db nm k = .ok (db2, db.nextTagId) ∧
      db2.logs = db.logs ++ [createMsg nm db.nextTagId k]) := by
  refine ⟨rfl, rfl, rfl, rfl, rfl, rfl, ?_, ?_⟩
  · refine ⟨applyTxns (assignTagToFileTxns fid tid v) db, ?_, rfl⟩
    simp [assignTagToFile, hf, ht]
  · refine ⟨applyTxns (createTagTxns nm k db.nextTagId) db, ?_, rfl⟩
    rcases hk with h | h | h <;> simp [createTag, h]

/-- Witness for the amended C5 at a concrete state. -/
theorem logging_per_operation_witness :
    (updateFilePath sampleDB "a" "b").logs = sampleDB.logs ++ [updateMsg "a" "b"] :=
  (logging_per_operation sampleDB "a" "b" "p" "m" "nm" "string" 1 1 none []
    (by decide) (by decide) (Or.inr (Or.inr rfl))).1

/-- Counterexample to C8: after only the first commit of
`update_file_path "a" "b"` the UPDATE is durable while the log row is not,
an outcome the claim says cannot exist. -/
theorem updateFilePath_commits_before_log :
    (applyTxns ((updateFilePathTxns "a" "b").take 1)
        ⟨[⟨1, "a", "a", ""⟩], [], [], [], 2, 1⟩).files = [⟨1, "b", "b", ""⟩] ∧
    (applyTxns ((updateFilePathTxns "a" "b").take 1)
        ⟨[⟨1, "a", "a", ""⟩], [], [], [], 2, 1⟩).logs = [] := by decide

/-- C8 (amended): `delete_tag`, `assign_tag_to_file` and
`remove_tag_from_file` commit the log row in the same single transaction as
the primary write, but `update_file_path` and `create_tag` commit the
primary write in a first transaction of its own and the log row in a second
one, so the primary write can be committed while its log entry is not. -/
theorem commit_granularity (db : DB) (o n nm k : String) (fid tid : Nat) (v : Option String) :
    (deleteTagTxns tid).length = 1 ∧
    (assignTagToFileTxns fid tid v).length = 1 ∧
    (removeTagFromFileTxns fid tid).length = 1 ∧
    (updateFilePathTxns o n).length = 2 ∧
    (createTagTxns nm k tid).length = 2 ∧
    (applyTxns ((updateFilePathTxns o n).take 1) db).files = (updateFilePath db o n).files ∧
    (applyTxns ((updateFilePathTxns o n).take 1) db).logs = db.logs ∧
    (applyTxns ((createTagTxns nm k tid).take 1) db).tags = db.tags ++ [⟨db.nextTagId, nm, k⟩] ∧
    (applyTxns ((createTagTxns nm k tid).take 1) db).logs = db.logs ∧
    (deleteTag db tid).logs = db.logs ++ [deleteMsg tid] ∧
    (applyTxns (assignTagToFileTxns fid tid v) db).logs = db.logs ++ [assignMsg fid tid v] ∧
    (removeTagFromFile db fid tid).logs = db.logs ++ [removeAssocMsg fid tid] :=
  ⟨rfl, rfl, rfl, rfl, rfl, rfl, rfl, rfl, rfl, rfl, rfl, rfl⟩

/-- C10: with query `a_b`, both `search_by_filename` and `search_all` return
a file whose fields are `axb` and the empty string, although neither
contains `a_b` as a literal substring — `_` acts as a single-character
wildcard inside the LIKE pattern. -/
theorem like_wildcards_not_literal :
    searchByFilename ⟨[⟨1, "axb", "axb", ""⟩], [], [], [], 2, 1⟩ "a_b"
      = [⟨1, "axb", "axb", ""⟩] ∧
    searchAll ⟨[⟨1, "axb", "axb", ""⟩], [], [], [], 2, 1⟩ "a_b"
      = [(1, "axb", "axb", "")] ∧
    ¬ ("a_b".data <:+: "axb".data) ∧ ¬ ("a_b".data <:+: "".data) := by decide

/-- One API call of the Catalog or the Tag Store. -/
inductive Op where
  | addFileOp (filePath fileMeta : String)
  | removeFileOp (fid : Nat)
  | updateFilePathOp (o n : String)
  | verifyAllFilesOp (fs : List String)
  | createTagOp (nm k : String)
  | deleteTagOp (tid : Nat)
  | assignTagOp (fid tid : Nat) (v : Option String)
  | removeTagFromFileOp (fid tid : Nat)

/-- Effect of one API call on the store; a call SQLite rejects (CHECK or
FOREIGN KEY violation) rolls back and leaves the state unchanged. -/
def applyOp (db : DB) : Op → DB
  | .addFileOp p m => (addFile db p m).1
  | .removeFileOp fid => removeFile db fid
  | .updateFilePathOp o n => updateFilePath db o n
  | .verifyAllFilesOp fs => verifyAllFiles fs db
  | .createTagOp nm k =>
    (match createTag db nm k with
      | .ok (d, _) => d
      | .error _ => db)
  | .deleteTagOp tid => deleteTag db tid
  | .assignTagOp fid tid v =>
    (match assignTagToFile db fid tid v with
      | .ok d => d
      | .error _ => db)
  | .removeTagFromFileOp fid tid => removeTagFromFile db fid tid

/-- Run a sequence of API calls. -/
def run (ops : List Op) (db : DB) : DB := ops.foldl applyOp db

/-- In the state after `delete_tag tid`, no association row carries `tid`,
provided the starting state satisfies referential integrity. -/
theorem deleteTag_no_assoc (db : DB) (tid : Nat) (h : WF db) :
    ∀ a ∈ (deleteTag db tid).fileTags, a.tagId ≠ tid := by
  intro a ha hEq
  have ha' : a ∈ db.fileTags.filter
      (fun a => ! (db.tags.filter (fun t => t.id == tid)).any (fun t => t.id == a.tagId)) := ha
  simp only [List.mem_filter] at ha'
  obtain ⟨haMem, haKeep⟩ := ha'
  obtain ⟨-, ⟨t, ht, hte⟩⟩ := h a haMem
  have : (db.tags.filter (fun t => t.id == tid)).any (fun t => t.id == a.tagId) = true := by
    refine List.any_eq_true.mpr ⟨t, ?_, by simp [hte, hEq]⟩
    exact List.mem_filter.mpr ⟨ht, by simp [hte, hEq]⟩
  simp [this] at haKeep

/-- A mapped `files` table keeps every id that the original table had,
whenever the mapping function preserves ids. -/
theorem exists_id_map (g : FileRecord → FileRecord) (hg : ∀ r, (g r).id = r.id)
    (l : List FileRecord) (fid : Nat) (hf : ∃ f ∈ l, f.id = fid) :
    ∃ f ∈ l.map g, f.id = fid := by
  obtain ⟨f, hfl, hfe⟩ := hf
  exact ⟨g f, List.mem_map_of_mem g hfl, by rw [hg]; exact hfe⟩

/-- `add_file` preserves referential integrity. -/
theorem WF_addFile (db : DB) (p m : String) (h : WF db) : WF (addFile db p m).1 := by
  intro a ha
  obtain ⟨⟨f, hf, hfe⟩, htp⟩ := h a ha
  exact ⟨⟨f, List.mem_append_left _ hf, hfe⟩, htp⟩

/-- `remove_file` preserves referential integrity. -/
theorem WF_removeFile (db : DB) (fid : Nat) (h : WF db) : WF (removeFile db fid) := by
  intro a ha
  have hne : a.fileId ≠ fid := removeFile_no_assoc db fid h a ha
  have haMem : a ∈ db.fileTags := (List.mem_filter.mp ha).1
  obtain ⟨⟨f, hf, hfe⟩, htp⟩ := h a haMem
  refine ⟨⟨f, List.mem_filter.mpr ⟨hf, ?_⟩, hfe⟩, htp⟩
  simpa [hfe] using hne

/-- `update_file_path` preserves referential integrity. -/
theorem WF_updateFilePath (db : DB) (o n : String) (h : WF db) : WF (updateFilePath db o n) := by
  intro a ha
  obtain ⟨hfile, htp⟩ := h a ha
  refine ⟨?_, htp⟩
  exact exists_id_map _ (fun r => by by_cases hc : r.path = o <;> simp [hc]) db.files a.fileId hfile

/-- `verify_all_files` preserves referential integrity. -/
theorem WF_verifyAllFiles (fs : List String) (db : DB) (h : WF db) : WF (verifyAllFiles fs db) := by
  intro a ha
  obtain ⟨hfile, htp⟩ := h a ha
  refine ⟨?_, htp⟩
  refine exists_id_map _ (fun r => ?_) db.files a.fileId hfile
  split
  · rfl
  · show (if fs.contains (pathJoin (dirname r.path) (basename r.path)) = true
        then { r with path := pathJoin (dirname r.path) (basename r.path) } else r).id = r.id
    split <;> rfl

/-- `delete_tag` preserves referential integrity. -/
theorem WF_deleteTag (db : DB) (tid : Nat) (h : WF db) : WF (deleteTag db tid) := by
  intro a ha
  have hne : a.tagId ≠ tid := deleteTag_no_assoc db tid h a ha
  have haMem : a ∈ db.fileTags := (List.mem_filter.mp ha).1
  obtain ⟨hfp, ⟨t, ht, hte⟩⟩ := h a haMem
  refine ⟨hfp, ⟨t, List.mem_filter.mpr ⟨ht, ?_⟩, hte⟩⟩
  simpa [hte] using hne

/-- `create_tag` preserves referential integrity. -/
theorem WF_createTagStep (db : DB) (nm k : String) (tid : Nat) (h : WF db) :
    WF (applyTxns (createTagTxns nm k tid) db) := by
  intro a ha
  obtain ⟨hfp, ⟨t, ht, hte⟩⟩ := h a ha
  exact ⟨hfp, ⟨t, List.mem_append_left _ ht, hte⟩⟩

/-- A successful `assign_tag_to_file` preserves referential integrity: the
new row passed the foreign-key check, the surviving rows were already
covered. -/
theorem WF_assignStep (db : DB) (fid tid : Nat) (v : Option String)
    (hf : db.files.any (fun r => r.id == fid) = true)
    (ht : db.tags.any (fun t => t.id == tid) = true) :
    WF db → WF (applyTxns (assignTagToFileTxns fid tid v) db) := by
  intro h a ha
  have ha' : a ∈ db.fileTags.filter
      (fun a : Assoc => ! (a.fileId == fid && a.tagId == tid)) ++ [(⟨fid, tid, v⟩ : Assoc)] := ha
  rcases List.mem_append.mp ha' with hl | hr
  · exact h a (List.mem_filter.mp hl).1
  · have haEq : a = (⟨fid, tid, v⟩ : Assoc) := by simpa using hr
    subst haEq
    obtain ⟨f, hfm, hfe⟩ := List.any_eq_true.mp hf
    obtain ⟨t, htm, hte⟩ := List.any_eq_true.mp ht
    exact ⟨⟨f, hfm, by simpa using hfe⟩, ⟨t, htm, by simpa using hte⟩⟩

/-- `remove_tag_from_file` preserves referential integrity. -/
theorem WF_removeTagFromFile (db : DB) (fid tid : Nat) (h : WF db) :
    WF (removeTagFromFile db fid tid) := by
  intro a ha
  exact h a (List.mem_filter.mp ha).1

/-- Every single API call preserves referential integrity. -/
theorem WF_applyOp (db : DB) (op : Op) (h : WF db) : WF (applyOp db op) := by
  cases op with
  | addFileOp p m => exact WF_addFile db p m h
  | removeFileOp fid => exact WF_removeFile db fid h
  | updateFilePathOp o n => exact WF_updateFilePath db o n h
  | verifyAllFilesOp fs => exact WF_verifyAllFiles fs db h
  | createTagOp nm k =>
    by_cases hv : k = "boolean" ∨ k = "numeric" ∨ k = "string"
    · simp only [applyOp, createTag, if_pos hv]
      exact WF_createTagStep db nm k db.nextTagId h
    · simp only [applyOp, createTag, if_neg hv]
      exact h
  | deleteTagOp tid => exact WF_deleteTag db tid h
  | assignTagOp fid tid v =>
    by_cases hc : (db.files.any (fun r => r.id == fid) &&
        db.tags.any (fun t => t.id == tid)) = true
    · have hf : db.files.any (fun r => r.id == fid) = true := by
        simpa using (Bool.and_eq_true _ _ |>.mp hc).1
      have ht : db.tags.any (fun t => t.id == tid) = true := by
        simpa using (Bool.and_eq_true _ _ |>.mp hc).2
      simp only [applyOp, assignTagToFile, if_pos hc]
      exact WF_assignStep db fid tid v hf ht h
    · simp only [applyOp, assignTagToFile, if_neg hc]
      exact h
  | removeTagFromFileOp fid tid => exact WF_removeTagFromFile db fid tid h

/-- Any sequence of API calls preserves referential integrity. -/
theorem WF_run (ops : List Op) (db : DB) (h : WF db) : WF (run ops db) := by
  induction ops generalizing db with
  | nil => exact h
  | cons op rest ih => exact ih (applyOp db op) (WF_applyOp db op h)

/-- C9: from any state satisfying referential integrity, every sequence of
Catalog and Tag Store operations keeps every association row pointing at an
existing file row and an existing tag row; moreover `remove_file` removes
every association of the removed file and `delete_tag` every association of
the removed tag, so no call leaves a dangling association. -/
theorem referential_integrity (db : DB) (h : WF db) :
    (∀ ops, WF (run ops db)) ∧
    (∀ fid, ∀ a ∈ (removeFile db fid).fileTags, a.fileId ≠ fid) ∧
    (∀ tid, ∀ a ∈ (deleteTag db tid).fileTags, a.tagId ≠ tid) :=
  ⟨fun ops => WF_run ops db h,
   fun fid => removeFile_no_assoc db fid h,
   fun tid => deleteTag_no_assoc db tid h⟩

/-- Witness for C9: a concrete run from the initial state. -/
theorem referential_integrity_witness :
    WF (run [Op.addFileOp "a/b" "", Op.createTagOp "t" "string",
      Op.assignTagOp 1 1 (some "v"), Op.removeFileOp 1] initDB) :=
  (referential_integrity initDB (by decide)).1
    [Op.addFileOp "a/b" "", Op.createTagOp "t" "string",
      Op.assignTagOp 1 1 (some "v"), Op.removeFileOp 1]

/-- The spec-side match predicate of `SearchAll`, per file: one of `path`,
display name, `metadata`, a tag name reachable through one of the file's
associations, or one of its association values matches `LIKE '%q%'`. -/
def specMatch (db : DB) (q : String) (f : FileRecord) : Prop :=
  likeQ q f.path = true ∨ likeQ q f.name = true ∨ likeQ q f.metadata = true ∨
  (∃ a ∈ db.fileTags, a.fileId = f.id ∧
    ∃ t ∈ db.tags, t.id = a.tagId ∧ likeQ q t.name = true) ∨
  (∃ a ∈ db.fileTags, a.fileId = f.id ∧ ∃ v, a.value = some v ∧ likeQ q v = true)

/-- The LEFT JOIN produces at least one row for every file. -/
theorem rowsFor_ne_nil (db : DB) (f : FileRecord) : rowsFor db f ≠ [] := by
  unfold rowsFor
  cases he : (db.fileTags.filter (fun a => a.fileId == f.id)).isEmpty with
  | true => rw [if_pos he]; simp
  | false =>
    rw [if_neg (by simp [he])]
    intro hnil
    rw [List.flatMap_eq_nil_iff] at hnil
    have hne : db.fileTags.filter (fun a => a.fileId == f.id) ≠ [] := by
      simpa [List.isEmpty_iff] using he
    obtain ⟨a, haMem⟩ := List.exists_mem_of_ne_nil _ hne
    have hInner := hnil a haMem
    cases hts : (db.tags.filter (fun t => t.id == a.tagId)).isEmpty with
    | true => rw [if_pos hts] at hInner; cases hInner
    | false =>
      rw [if_neg (by simp [hts])] at hInner
      have hne2 : db.tags.filter (fun t => t.id == a.tagId) ≠ [] := by
        simpa [List.isEmpty_iff] using hts
      exact hne2 (by simpa [List.map_eq_nil_iff] using hInner)

/-- What membership in the joined rows of one file tells about the optional
association and tag parts. -/
theorem mem_rowsFor (db : DB) (f : FileRecord) (a? : Option Assoc) (t? : Option Tag)
    (h : (a?, t?) ∈ rowsFor db f) :
    (∀ a, a? = some a → a ∈ db.fileTags ∧ a.fileId = f.id) ∧
    (∀ t, t? = some t → ∃ a, a? = some a ∧ t ∈ db.tags ∧ t.id = a.tagId) := by
  unfold rowsFor at h
  by_cases he : (db.fileTags.filter (fun a => a.fileId == f.id)).isEmpty = true
  · rw [if_pos he] at h
    simp only [List.mem_singleton, Prod.mk.injEq] at h
    obtain ⟨h1, h2⟩ := h
    subst h1; subst h2
    refine ⟨fun a ha => ?_, fun t ht => ?_⟩
    · exact nomatch ha
    · exact nomatch ht
  · rw [if_neg he] at h
    rw [List.mem_flatMap] at h
    obtain ⟨a, haMem, hIn⟩ := h
    obtain ⟨haT, haId⟩ := List.mem_filter.mp haMem
    have haId' : a.fileId = f.id := by simpa using haId
    by_cases hts : (db.tags.filter (fun t => t.id == a.tagId)).isEmpty = true
    · rw [if_pos hts] at hIn
      simp only [List.mem_singleton, Prod.mk.injEq] at hIn
      obtain ⟨h1, h2⟩ := hIn
      subst h1; subst h2
      refine ⟨fun a' ha' => ?_, fun t ht => ?_⟩
      · injection ha' with h''
        subst h''
        exact ⟨haT, haId'⟩
      · exact nomatch ht
    · rw [if_neg hts] at hIn
      rw [List.mem_map] at hIn
      obtain ⟨t, htMem, hEq⟩ := hIn
      obtain ⟨htT, htId⟩ := List.mem_filter.mp htMem
      rw [Prod.mk.injEq] at hEq
      obtain ⟨h1, h2⟩ := hEq
      subst h1; subst h2
      refine ⟨fun a' ha' => ?_, fun t' ht' => ?_⟩
      · injection ha' with h''
        subst h''
        exact ⟨haT, haId'⟩
      · injection ht' with h''
        subst h''
        exact ⟨a, rfl, htT, by simpa using htId⟩

/-- Every association of a file contributes at least one joined row. -/
theorem rowsFor_mem_of_assoc (db : DB) (f : FileRecord) (a : Assoc)
    (ha : a ∈ db.fileTags) (hfa : a.fileId = f.id) :
    ∃ t?, (some a, t?) ∈ rowsFor db f := by
  have hmemF : a ∈ db.fileTags.filter (fun x => x.fileId == f.id) :=
    List.mem_filter.mpr ⟨ha, by simp [hfa]⟩
  have he : ¬ (db.fileTags.filter (fun x => x.fileId == f.id)).isEmpty = true := by
    intro hE
    rw [List.isEmpty_iff] at hE
    rw [hE] at hmemF
    cases hmemF
  unfold rowsFor
  rw [if_neg he]
  by_cases hts : (db.tags.filter (fun t => t.id == a.tagId)).isEmpty = true
  · refine ⟨none, List.mem_flatMap.mpr ⟨a, hmemF, ?_⟩⟩
    rw [if_pos hts]
    simp
  · have hne2 : db.tags.filter (fun t => t.id == a.tagId) ≠ [] := by
      simpa [List.isEmpty_iff] using hts
    obtain ⟨t, htMem⟩ := List.exists_mem_of_ne_nil _ hne2
    refine ⟨some t, List.mem_flatMap.mpr ⟨a, hmemF, ?_⟩⟩
    rw [if_neg hts]
    exact List.mem_map.mpr ⟨t, htMem, rfl⟩

/-- An association together with its (existing) tag contributes the fully
joined row. -/
theorem rowsFor_mem_of_assoc_tag (db : DB) (f : FileRecord) (a : Assoc) (t : Tag)
    (ha : a ∈ db.fileTags) (hfa : a.fileId = f.id)
    (ht : t ∈ db.tags) (hta : t.id = a.tagId) :
    (some a, some t) ∈ rowsFor db f := by
  have hmemF : a ∈ db.fileTags.filter (fun x => x.fileId == f.id) :=
    List.mem_filter.mpr ⟨ha, by simp [hfa]⟩
  have he : ¬ (db.fileTags.filter (fun x => x.fileId == f.id)).isEmpty = true := by
    intro hE
    rw [List.isEmpty_iff] at hE
    rw [hE] at hmemF
    cases hmemF
  have hmemT : t ∈ db.tags.filter (fun x => x.id == a.tagId) :=
    List.mem_filter.mpr ⟨ht, by simp [hta]⟩
  have hts : ¬ (db.tags.filter (fun x => x.id == a.tagId)).isEmpty = true := by
    intro hE
    rw [List.isEmpty_iff] at hE
    rw [hE] at hmemT
    cases hmemT
  unfold rowsFor
  rw [if_neg he]
  refine List.mem_flatMap.mpr ⟨a, hmemF, ?_⟩
  rw [if_neg hts]
  exact List.mem_map.mpr ⟨t, hmemT, rfl⟩

/-- Membership in the full double LEFT JOIN. -/
theorem mem_joinedRows (db : DB) (f : FileRecord) (a? : Option Assoc) (t? : Option Tag) :
    (f, a?, t?) ∈ joinedRows db ↔ f ∈ db.files ∧ (a?, t?) ∈ rowsFor db f := by
  unfold joinedRows
  rw [List.mem_flatMap]
  constructor
  · rintro ⟨g, hg, hIn⟩
    rw [List.mem_map] at hIn
    obtain ⟨p, hp, hEq⟩ := hIn
    rw [Prod.mk.injEq, Prod.mk.injEq] at hEq
    obtain ⟨h1, h2, h3⟩ := hEq
    subst h1; subst h2; subst h3
    exact ⟨hg, by simpa using hp⟩
  · rintro ⟨h1, h2⟩
    exact ⟨f, h1, List.mem_map.mpr ⟨(a?, t?), h2, rfl⟩⟩

/-- Membership in `search_all` output, characterised by the five-field
spec-side predicate. -/
theorem searchAll_mem_iff (db : DB) (q : String) (x : Nat × String × String × String) :
    x ∈ searchAll db q ↔
      ∃ f ∈ db.files, x = (f.id, f.name, f.path, f.metadata) ∧ specMatch db q f := by
  unfold searchAll
  rw [List.mem_dedup, List.mem_map]
  constructor
  · rintro ⟨row, hrow, hsel⟩
    obtain ⟨hJoin, hMatch⟩ := List.mem_filter.mp hrow
    obtain ⟨f, a?, t?⟩ := row
    obtain ⟨hf, hRows⟩ := (mem_joinedRows db f a? t?).mp hJoin
    obtain ⟨hA, hT⟩ := mem_rowsFor db f a? t? hRows
    refine ⟨f, hf, by exact hsel.symm, ?_⟩
    unfold rowMatches at hMatch
    cases t? with
    | some t =>
      obtain ⟨a, haEq, htT, htId⟩ := hT t rfl
      subst haEq
      obtain ⟨haT, haId⟩ := hA a rfl
      simp only [Bool.or_eq_true] at hMatch
      rcases hMatch with ((((h1 | h2) | h3) | h4) | h5)
      · exact Or.inl h1
      · exact Or.inr (Or.inl h2)
      · exact Or.inr (Or.inr (Or.inl h3))
      · exact Or.inr (Or.inr (Or.inr (Or.inl ⟨a, haT, haId, t, htT, htId, h4⟩)))
      · cases hv : a.value with
        | none => rw [hv] at h5; cases h5
        | some v =>
          rw [hv] at h5
          exact Or.inr (Or.inr (Or.inr (Or.inr ⟨a, haT, haId, v, hv, h5⟩)))
    | none =>
      cases a? with
      | some a =>
        obtain ⟨haT, haId⟩ := hA a rfl
        simp only [Bool.or_eq_true] at hMatch
        rcases hMatch with ((((h1 | h2) | h3) | h4) | h5)
        · exact Or.inl h1
        · exact Or.inr (Or.inl h2)
        · exact Or.inr (Or.inr (Or.inl h3))
        · cases h4
        · cases hv : a.value with
          | none => rw [hv] at h5; cases h5
          | some v =>
            rw [hv] at h5
            exact Or.inr (Or.inr (Or.inr (Or.inr ⟨a, haT, haId, v, hv, h5⟩)))
      | none =>
        simp only [Bool.or_eq_true] at hMatch
        rcases hMatch with ((((h1 | h2) | h3) | h4) | h5)
        · exact Or.inl h1
        · exact Or.inr (Or.inl h2)
        · exact Or.inr (Or.inr (Or.inl h3))
        · cases h4
        · cases h5
  · rintro ⟨f, hf, hx, hMatch⟩
    rcases hMatch with h1 | h2 | h3 | ⟨a, haT, haId, t, htT, htId, h4⟩ | ⟨a, haT, haId, v, hv, h5⟩
    · obtain ⟨p, hp⟩ := List.exists_mem_of_ne_nil _ (rowsFor_ne_nil db f)
      refine ⟨(f, p.1, p.2), List.mem_filter.mpr ⟨(mem_joinedRows db f p.1 p.2).mpr
        ⟨hf, by simpa using hp⟩, ?_⟩, hx.symm⟩
      unfold rowMatches
      simp [h1]
    · obtain ⟨p, hp⟩ := List.exists_mem_of_ne_nil _ (rowsFor_ne_nil db f)
      refine ⟨(f, p.1, p.2), List.mem_filter.mpr ⟨(mem_joinedRows db f p.1 p.2).mpr
        ⟨hf, by simpa using hp⟩, ?_⟩, hx.symm⟩
      unfold rowMatches
      simp [h2]
    · obtain ⟨p, hp⟩ := List.exists_mem_of_ne_nil _ (rowsFor_ne_nil db f)
      refine ⟨(f, p.1, p.2), List.mem_filter.mpr ⟨(mem_joinedRows db f p.1 p.2).mpr
        ⟨hf, by simpa using hp⟩, ?_⟩, hx.symm⟩
      unfold rowMatches
      simp [h3]
    · refine ⟨(f, some a, some t), List.mem_filter.mpr ⟨(mem_joinedRows db f _ _).mpr
        ⟨hf, rowsFor_mem_of_assoc_tag db f a t haT haId htT htId⟩, ?_⟩, hx.symm⟩
      unfold rowMatches
      simp [h4]
    · obtain ⟨t?, hrow⟩ := rowsFor_mem_of_assoc db f a haT haId
      refine ⟨(f, some a, t?), List.mem_filter.mpr ⟨(mem_joinedRows db f _ _).mpr
        ⟨hf, hrow⟩, ?_⟩, hx.symm⟩
      unfold rowMatches
      simp [likeQOpt, hv, h5]

/-- C6 (amended): on a state with unique file ids, `SearchAll(q)` returns
exactly the files one of whose five fields — path, display name, metadata,
a tag name of one of its associations, or an association value — matches
the SQL LIKE pattern `%q%`, and each matching file appears exactly once
(deduplicated by file id). -/
theorem searchAll_like_union_dedup (db : DB) (q : String)
    (h : (db.files.map FileRecord.id).Nodup) :
    (∀ x, x ∈ searchAll db q ↔
      ∃ f ∈ db.files, x = (f.id, f.name, f.path, f.metadata) ∧ specMatch db q f) ∧
    ((searchAll db q).map (fun x => x.1)).Nodup := by
  refine ⟨fun x => searchAll_mem_iff db q x, ?_⟩
  have hinj := List.inj_on_of_nodup_map h
  refine List.Nodup.map_on ?_ (List.nodup_dedup _)
  intro x hx y hy hxy
  obtain ⟨f, hfm, hfx, -⟩ := (searchAll_mem_iff db q x).mp hx
  obtain ⟨g, hgm, hgy, -⟩ := (searchAll_mem_iff db q y).mp hy
  have hid : f.id = g.id := by
    have : x.1 = f.id := by rw [hfx]
    have h2 : y.1 = g.id := by rw [hgy]
    rw [← this, ← h2]; exact hxy
  have : f = g := hinj hfm hgm hid
  rw [hfx, hgy, this]

/-- Witness for the amended C6 at a concrete state. -/
theorem searchAll_like_union_dedup_witness :
    ((searchAll sampleDB "b").map (fun x => x.1)).Nodup :=
  (searchAll_like_union_dedup sampleDB "b" (by decide)).2

/-- Counterexample to C6 as stated: with query `_`, `search_all` returns a
file none of whose fields contains `_` as a literal substring, because `_`
is a LIKE single-character wildcard; the claimed substring-union result
would be empty. -/
theorem searchAll_wildcard_counterexample :
    searchAll ⟨[⟨1, "x", "x", ""⟩], [], [], [], 2, 1⟩ "_" = [(1, "x", "x", "")] ∧
    ¬ ("_".data <:+: "x".data) ∧ ¬ ("_".data <:+: "".data) := by decide

end AutoTag
